import Mathlib

/-!
# Verification of the coldmail-auto mail-merge core

Shallow embedding of the template engine (`template_engine.py`), the data
analyzer (`excel_parser.py`), the send-history store (`send_history.py`)
and the Step-4 send pipeline (`app.py`), together with proofs of the
specification's testable properties.

Strings are modelled as Lean `String`s; Python dictionaries as association
lists (first binding wins, as in `dict.get`); pandas cells as
`Option String` with `none` playing the role of `NaN`.
-/

namespace ColdMail

/-- Left brace character `U+007B` (written via its code point). -/
def lbrace : Char := Char.ofNat 123

/-- Right brace character `U+007D` (written via its code point). -/
def rbrace : Char := Char.ofNat 125

/-- A character matched by the regex class `[^{}]`. -/
def nonBrace (c : Char) : Bool := c ≠ lbrace && c ≠ rbrace

/-- Python `str.strip` on a character list: drop whitespace from both ends. -/
def stripL (l : List Char) : List Char :=
  ((l.dropWhile Char.isWhitespace).reverse.dropWhile Char.isWhitespace).reverse

/-- Python `str.strip` on strings. -/
def pyStrip (s : String) : String := String.mk (stripL s.data)

/-- Python `str.lower` restricted to the ASCII letters (the only case the
sources rely on: it is applied to email addresses). -/
def lowerChar (c : Char) : Char :=
  if 65 ≤ c.toNat ∧ c.toNat ≤ 90 then Char.ofNat (c.toNat + 32) else c

/-- Python `str.lower` on strings (ASCII letters). -/
def pyLower (s : String) : String := String.mk (s.data.map lowerChar)

/-- `email.strip().lower()` — the normalization used by `send_history.py`. -/
def normalizeEmail (s : String) : String := pyLower (pyStrip s)

/-!
## Template engine (`template_engine.py`)

`VARIABLE_PATTERN = re.compile(r"\x7b([^{}]+)\x7d")` scans left to right for
non-overlapping matches of a single `\x7b`, a non-empty run of non-brace
characters, and a closing `\x7d`.  `findAux`/`subAux` implement this scan as
a character-at-a-time automaton: the mode `some acc` means the scanner has
passed an opening brace and accumulated the (reversed) run `acc` of
non-brace characters after it.
-/

/-- `re.findall(VARIABLE_PATTERN, text)`: the list of raw group contents of
all matches, left to right. -/
def findAux : Option (List Char) → List Char → List (List Char)
  | _, [] => []
  | none, c :: cs =>
    if c = lbrace then findAux (some []) cs else findAux none cs
  | some acc, c :: cs =>
    if c = lbrace then findAux (some []) cs
    else if c = rbrace then
      if acc = [] then findAux none cs
      else acc.reverse :: findAux none cs
    else findAux (some (c :: acc)) cs

/-- `re.sub(VARIABLE_PATTERN, repl, text)`: replace every match by
`repl` of its group, copying unmatched characters verbatim. -/
def subAux (repl : List Char → List Char) : Option (List Char) → List Char → List Char
  | none, [] => []
  | some acc, [] => lbrace :: acc.reverse
  | none, c :: cs =>
    if c = lbrace then subAux repl (some []) cs else c :: subAux repl none cs
  | some acc, c :: cs =>
    if c = lbrace then (lbrace :: acc.reverse) ++ subAux repl (some []) cs
    else if c = rbrace then
      if acc = [] then lbrace :: rbrace :: subAux repl none cs
      else repl acc.reverse ++ subAux repl none cs
    else subAux repl (some (c :: acc)) cs

/-- The raw (unstripped) regex matches of `VARIABLE_PATTERN` in a string. -/
def findallVars (text : String) : List String :=
  (findAux none text.data).map String.mk

/-- The dedup loop of `extract_variables`: strip each found name, skip empty
names and names already seen. -/
def dedupVars : List String → List String → List String
  | [], _ => []
  | v :: vs, seen =>
    let v := pyStrip v
    if v ≠ "" ∧ v ∉ seen then v :: dedupVars vs (v :: seen)
    else dedupVars vs seen

/-- `template_engine.extract_variables`. -/
def extract_variables (text : String) : List String :=
  dedupVars (findallVars text) []

/-- A Python `dict[str, str]` as an association list (first binding wins). -/
abbrev Dict := List (String × String)

/-- Python `d.get(k, "")`. -/
def dictGet (d : Dict) (k : String) : String :=
  match d.lookup k with
  | some v => v
  | none => ""

/-- Python `d.get(k, dflt)`. -/
def dictGetD (d : Dict) (k dflt : String) : String := (d.lookup k).getD dflt

/-- Python `k in d`. -/
def hasKey (d : Dict) (k : String) : Bool := (d.lookup k).isSome

/-- The `replacer` closure inside `render_template`: resolve the stripped
variable name in `data`, falling back to `defaults` when the value is
empty, and to `""` when absent from both. -/
def replacer (data defaults : Dict) (group : List Char) : List Char :=
  let varName := pyStrip (String.mk group)
  let value := dictGet data varName
  let value := if value = "" then dictGet defaults varName else value
  value.data

/-- `template_engine.render_template` (with `defaults` already defaulted to
the empty dict, as the Python `None` guard does). -/
def render_template (template : String) (data : Dict) (defaults : Dict) : String :=
  String.mk (subAux (replacer data defaults) none template.data)

/-- Python truthiness of an `Optional[str]`: `None` and `""` are falsy. -/
def pyTruthy : Option String → Bool
  | none => false
  | some s => s ≠ ""

/-- Result of `render_email`. -/
structure RenderResult where
  subject : String
  body : String
  used_alt : Bool
deriving DecidableEq, Repr

/-- `template_engine.render_email`.  (`all_vars` is Python's
`set(extract_variables(subject) + extract_variables(body))`; iterating the
set or the concatenated list gives the same `any`, so the concatenation is
used directly.) -/
def render_email (subject_template body_template : String)
    (data : Dict) (defaults : Dict)
    (alt_subject_template alt_body_template : Option String) : RenderResult :=
  let all_vars := extract_variables subject_template ++ extract_variables body_template
  let has_empty := all_vars.any fun v =>
    (hasKey data v || hasKey defaults v) && dictGet data v = ""
  if has_empty && pyTruthy alt_subject_template && pyTruthy alt_body_template then
    { subject := render_template (alt_subject_template.getD "") data defaults
      body := render_template (alt_body_template.getD "") data defaults
      used_alt := true }
  else
    { subject := render_template subject_template data defaults
      body := render_template body_template data defaults
      used_alt := false }

/-- `template_engine.get_empty_variables`. -/
def get_empty_variables (data : Dict) (vars : List String) : List String :=
  vars.filter fun v => dictGet data v = ""

/-!
## Data analyzer (`excel_parser.py`)

A pandas cell is `Option String`, with `none` for `NaN`; a row is an
association list from column name to cell; a data frame carries its column
list and its rows.
-/

/-- A pandas cell: `none` models `NaN`. -/
abbrev Cell := Option String

/-- A data-frame row. -/
abbrev Row := List (String × Cell)

/-- A data frame: trimmed column names plus rows. -/
structure Frame where
  columns : List String
  rows : List Row
deriving Repr

/-- Python `str(val)` on a cell: `str(nan) = "nan"`. -/
def cellStr : Cell → String
  | none => "nan"
  | some s => s

/-- Python `row.get(col, "")` on a data-frame row (the default is the
present string `""`, not `NaN`). -/
def rowGet (r : Row) (c : String) : Cell := (r.lookup c).getD (some "")

/-- The per-column emptiness test of `analyze_data`:
`pd.isna(val) or str(val).strip() == ""`. -/
def emptyCell : Cell → Bool
  | none => true
  | some s => pyStrip s = ""

/-- The `empty_vars` collected for one row (check columns in order). -/
def rowEmptyVars (checkCols : List String) (r : Row) : List String :=
  checkCols.filter fun c => emptyCell (rowGet r c)

/-- One record of `empty_details`. -/
structure EmptyDetail where
  row : Nat
  email : String
  empty_vars : List String
deriving DecidableEq, Repr

/-- Result of `analyze_data`. -/
structure AnalyzeResult where
  total : Nat
  complete : Nat
  has_empty : Nat
  no_email : Nat
  empty_details : List EmptyDetail
deriving DecidableEq, Repr

/-- The row loop of `analyze_data` (`idx` is the 0-based iteration index). -/
def analyzeRows (emailCol : String) (checkCols : List String) :
    List Row → Nat → AnalyzeResult
  | [], _ => ⟨0, 0, 0, 0, []⟩
  | r :: rs, idx =>
    let rest := analyzeRows emailCol checkCols rs (idx + 1)
    let email := pyStrip (cellStr (rowGet r emailCol))
    if email = "" ∨ email = "nan" then
      { rest with total := rest.total + 1, no_email := rest.no_email + 1 }
    else
      let ev := rowEmptyVars checkCols r
      if ev ≠ [] then
        { rest with
            total := rest.total + 1
            has_empty := rest.has_empty + 1
            empty_details := ⟨idx + 2, email, ev⟩ :: rest.empty_details }
      else
        { rest with total := rest.total + 1, complete := rest.complete + 1 }

/-- `excel_parser.analyze_data` (`check_columns` keeps the tracked variables
that actually are columns of the frame). -/
def analyze_data (df : Frame) (used_variables : List String)
    (email_column : String) : AnalyzeResult :=
  analyzeRows email_column (used_variables.filter (· ∈ df.columns)) df.rows 0

/-- The three-way per-row classification implicit in `analyze_data`
(spec §4.2); used to state the partition property. -/
inductive RowClass
  | noEmail
  | hasEmpty
  | complete
deriving DecidableEq, Repr

/-- Classify one row the way the `analyze_data` loop does. -/
def classifyRow (emailCol : String) (checkCols : List String) (r : Row) : RowClass :=
  let email := pyStrip (cellStr (rowGet r emailCol))
  if email = "" ∨ email = "nan" then .noEmail
  else if rowEmptyVars checkCols r ≠ [] then .hasEmpty
  else .complete

/-- `excel_parser.get_row_data`: every column becomes a trimmed string,
`NaN` becomes `""`. -/
def get_row_data (columns : List String) (r : Row) : Dict :=
  columns.map fun c =>
    (c, match (r.lookup c).getD (some "") with
        | none => ""
        | some s => pyStrip s)

/-!
## History Store (`send_history.py`)

The store is the column-A cells of the history sheet below the header row.
-/

/-- The History Store contents (column A below the header). -/
abbrev HistoryStore := List String

/-- `send_history.get_sent_emails`: every stored cell, stripped and
lowercased (the Python `set` is modelled by the resulting list, membership
in which is the only use). -/
def get_sent_emails (store : HistoryStore) : List String :=
  store.map normalizeEmail

/-- `send_history.add_sent_emails_batch`: append one row per email, the
address normalized by `email.strip().lower()`. -/
def add_sent_emails_batch (store : HistoryStore) (emails : List String) : HistoryStore :=
  store ++ emails.map normalizeEmail

/-!
## Send pipeline, Step 4 of `app.py`

Build phase (lines 914-969) and dispatch loop (lines 1029-1127).
The Gmail provider is an oracle giving each send attempt's outcome:
success, per-item failure `(False, message)`, or a raised exception
(caught by the `except` block of the loop).
-/

/-- One entry of the `email_list` built in the build phase. -/
structure Candidate where
  toAddr : String
  subject : String
  body : String
  note : String
deriving DecidableEq, Repr

/-- The session configuration the build phase reads. -/
structure BuildConfig where
  subject_t : String
  body_t : String
  email_col : String
  col_mapping : Dict
  empty_handling : String
  defaults_map : Dict
  alt_subject : String
  alt_body : String
deriving Repr

/-- Result of the build phase. -/
structure BuildResult where
  email_list : List Candidate
  skipped_already_sent : Nat
  total_all : Nat
deriving DecidableEq, Repr

/-- Render one kept row into a candidate (app.py lines 939-969). -/
def buildRow (cfg : BuildConfig) (used_vars : List String) (row_data : Dict)
    (to_email : String) : Candidate :=
  let mapped_data : Dict := used_vars.map fun var =>
    (var, dictGet row_data (dictGetD cfg.col_mapping var var))
  let defaults := if cfg.empty_handling = "defaults" then cfg.defaults_map else []
  let alt_sub := if cfg.empty_handling = "alt_template" then some cfg.alt_subject else none
  let alt_bod := if cfg.empty_handling = "alt_template" then some cfg.alt_body else none
  let rendered := render_email cfg.subject_t cfg.body_t mapped_data defaults alt_sub alt_bod
  let empty_vars_list := get_empty_variables mapped_data used_vars
  let note :=
    if rendered.used_alt then "별도 템플릿"
    else if empty_vars_list ≠ [] then "기본값 적용"
    else ""
  ⟨to_email, rendered.subject, rendered.body, note⟩

/-- The build loop over the rows (app.py lines 925-969). -/
def buildLoop (cfg : BuildConfig) (used_vars : List String)
    (already_sent : List String) (columns : List String) : List Row → BuildResult
  | [] => ⟨[], 0, 0⟩
  | r :: rs =>
    let rest := buildLoop cfg used_vars already_sent columns rs
    let row_data := get_row_data columns r
    let to_email := dictGet row_data cfg.email_col
    if to_email = "" ∨ to_email = "nan" then rest
    else if normalizeEmail to_email ∈ already_sent then
      { rest with
          skipped_already_sent := rest.skipped_already_sent + 1
          total_all := rest.total_all + 1 }
    else
      { rest with
          email_list := buildRow cfg used_vars row_data to_email :: rest.email_list
          total_all := rest.total_all + 1 }

/-- The whole build phase:
`used_vars = extract_variables(subject_t + " " + body_t)` (app.py 914). -/
def buildCandidates (cfg : BuildConfig) (already_sent : List String)
    (df : Frame) : BuildResult :=
  buildLoop cfg (extract_variables (cfg.subject_t ++ " " ++ cfg.body_t))
    already_sent df.columns df.rows

/-- Outcome of one provider send attempt. -/
inductive SendOutcome
  | ok
  | fail (msg : String)
  | raised (msg : String)
deriving DecidableEq, Repr

/-- Status string of a successful send. -/
def okStatus : String := "✅ 성공"

/-- Status string of a failed send. -/
def failStatus : String := "❌ 실패"

/-- Status string of a quota-halted item. -/
def haltStatus : String := "⏸️ 한도초과"

/-- Note attached to quota-halted items (app.py line 1059). -/
def haltNote (daily_limit : Int) : String :=
  "일일 한도 " ++ toString daily_limit ++ "건 도달 → 내일 자동 이어서 발송"

/-- One row of the `results` report (time, recipient, status, note);
`tstamp` models the `time.strftime` reading as a logical clock. -/
structure Entry where
  tstamp : Nat
  recipient : String
  status : String
  note : String
deriving DecidableEq, Repr

/-- The mutable state of the dispatch loop. -/
structure LoopSt where
  sent : Int
  results : List Entry
  success_count : Int
  fail_count : Int
  skipped_count : Int
  batch : List String
  flushed : List (List String)
  clock : Nat
  aborted : Option String
deriving DecidableEq, Repr

/-- `app._get_remaining`: `max(0, daily_limit - daily_sent_count)`. -/
def _get_remaining (daily_limit daily_sent_count : Int) : Int :=
  max 0 (daily_limit - daily_sent_count)

/-- Append one report entry per candidate, all with the same status and
note, advancing the clock. -/
def markEntries (clock : Nat) (status note : String) : List Candidate → List Entry
  | [] => []
  | c :: cs => ⟨clock, c.toAddr, status, note⟩ :: markEntries (clock + 1) status note cs

/-- The dispatch loop (app.py lines 1051-1123), one step per candidate.
`L` is the session `daily_limit`; `oracle i` is the provider outcome of the
`i`-th `send_email` call.  The quota branch marks every remaining candidate
halted and breaks; a raised provider exception is the `except` block, which
marks every candidate beyond `len(results)` failed with `str(e)`. -/
def sendLoopAux (L : Int) (oracle : Nat → SendOutcome) :
    List Candidate → Nat → LoopSt → LoopSt
  | [], _, st => st
  | c :: rest, i, st =>
    if _get_remaining L st.sent ≤ 0 then
      { st with
          results := st.results ++ markEntries st.clock haltStatus (haltNote L) (c :: rest)
          skipped_count := st.skipped_count + (c :: rest).length
          clock := st.clock + (c :: rest).length }
    else
      match oracle i with
      | .raised m =>
        { st with
            results := st.results ++ markEntries st.clock failStatus m (c :: rest)
            fail_count := st.fail_count + (c :: rest).length
            clock := st.clock + (c :: rest).length
            aborted := some m }
      | .ok =>
        let st' : LoopSt :=
          { st with
              results := st.results ++ [⟨st.clock, c.toAddr, okStatus, c.note⟩]
              clock := st.clock + 1
              success_count := st.success_count + 1
              sent := st.sent + 1 }
        let batch' := st'.batch ++ [c.toAddr]
        let st'' : LoopSt :=
          if batch'.length ≥ 10 then
            { st' with flushed := st'.flushed ++ [batch'], batch := [] }
          else
            { st' with batch := batch' }
        sendLoopAux L oracle rest (i + 1) st''
      | .fail m =>
        sendLoopAux L oracle rest (i + 1)
          { st with
              results := st.results ++ [⟨st.clock, c.toAddr, failStatus, m⟩]
              clock := st.clock + 1
              fail_count := st.fail_count + 1 }

/-- The initial loop state (app.py lines 1035-1039), with
`daily_sent_count = s0` at button press. -/
def initSt (s0 : Int) : LoopSt :=
  { sent := s0, results := [], success_count := 0, fail_count := 0
    skipped_count := 0, batch := [], flushed := [], clock := 0, aborted := none }

/-- A whole dispatch run: the loop followed by the unconditional final
flush `if sent_emails_batch and creds: add_sent_emails_batch(...)`
(app.py lines 1126-1127); the flushed buffer is cleared to mark it
persisted. -/
def dispatch (L s0 : Int) (oracle : Nat → SendOutcome)
    (emails : List Candidate) : LoopSt :=
  let fin := sendLoopAux L oracle emails 0 (initSt s0)
  if fin.batch ≠ [] then
    { fin with flushed := fin.flushed ++ [fin.batch], batch := [] }
  else fin

/-- The History Store after a run: one `add_sent_emails_batch` call per
flushed batch, in order. -/
def storeAfterRun (store : HistoryStore) (d : LoopSt) : HistoryStore :=
  d.flushed.foldl add_sent_emails_batch store

/-- The trimmed email of a row, or `none` when the
`if not to_email or to_email == "nan": continue` filter would skip it. -/
def rowEmail (emailCol : String) (columns : List String) (r : Row) : Option String :=
  let e := dictGet (get_row_data columns r) emailCol
  if e = "" ∨ e = "nan" then none else some e

/-- The rows of a frame whose email cell survives the skip filter,
projected to the trimmed email string (the candidate pre-filter domain). -/
def validEmails (emailCol : String) (df : Frame) : List String :=
  df.rows.filterMap (rowEmail emailCol df.columns)

/-- The recipients of the success entries of a report, in order. -/
def successRecipients (results : List Entry) : List String :=
  (results.filter fun e => e.status = okStatus).map Entry.recipient

/-- The report status a non-raising provider outcome produces. -/
def statusOfOutcome : SendOutcome → String
  | .ok => okStatus
  | .fail _ => failStatus
  | .raised _ => failStatus

/-- Report rows of an attempted prefix: candidate `j` of the prefix is
recorded with the status of its own send outcome `oracle (i + j)`. -/
def attemptEntries (oracle : Nat → SendOutcome) : Nat → List Candidate → List (String × String)
  | _, [] => []
  | i, c :: rest => (c.toAddr, statusOfOutcome (oracle i)) :: attemptEntries oracle (i + 1) rest

/-- Number of successful outcomes among `oracle i, ..., oracle (i + n - 1)`. -/
def okCount (oracle : Nat → SendOutcome) : Nat → Nat → Nat
  | _, 0 => 0
  | i, n + 1 => (if oracle i = SendOutcome.ok then 1 else 0) + okCount oracle (i + 1) n

/-!
## Concrete inputs used by the closed test theorems
-/

/-- Provider oracle where every send succeeds. -/
def okOracle : Nat → SendOutcome := fun _ => .ok

/-- Provider oracle where the first send fails and the rest succeed. -/
def failFirstOracle : Nat → SendOutcome :=
  fun i => if i = 0 then .fail "수신자 주소 오류" else .ok

/-- Provider oracle where the second send raises. -/
def raiseSecondOracle : Nat → SendOutcome :=
  fun i => if i = 1 then .raised "boom" else .ok

/-- A candidate with fixed subject and body. -/
def mkCand (a : String) : Candidate := ⟨a, "s", "b", ""⟩

/-- Three concrete candidates. -/
def exEmails : List Candidate :=
  [mkCand "a@x.com", mkCand "b@x.com", mkCand "c@x.com"]

/-- Eleven concrete candidates (enough to cross one flush boundary). -/
def exEmails11 : List Candidate :=
  (List.range 11).map fun i => mkCand ("u" ++ toString i ++ "@x.com")

/-- A concrete two-row frame. -/
def exFrame : Frame :=
  ⟨["email", "company"],
   [[("email", some "A@x.com"), ("company", some "")],
    [("email", some "b@x.com"), ("company", some "Acme")]]⟩

/-- A concrete build configuration over `exFrame`. -/
def exCfg : BuildConfig :=
  ⟨"\x7bcompany\x7d deal", "hi \x7bcompany\x7d", "email", [], "defaults", [], "", ""⟩

/-!
## Basic lemmas about the character-level primitives
-/

theorem toNat_ofNat_of_valid (n : Nat) (h : n < 55296) : (Char.ofNat n).toNat = n := by
  have hv : n.isValidChar := Or.inl h
  simp [Char.ofNat, hv, Char.ofNatAux, Char.toNat, UInt32.toNat]

theorem lowerChar_idem (c : Char) : lowerChar (lowerChar c) = lowerChar c := by
  unfold lowerChar
  split
  · next h =>
    have h2 : (Char.ofNat (c.toNat + 32)).toNat = c.toNat + 32 :=
      toNat_ofNat_of_valid _ (by omega)
    rw [if_neg (by omega)]
  · rfl

theorem char_eq_iff (c d : Char) : c = d ↔ c.toNat = d.toNat := by
  constructor
  · intro h; rw [h]
  · intro h
    exact Char.eq_of_val_eq (UInt32.toNat.inj h)

theorem ws_iff (c : Char) :
    c.isWhitespace = true ↔ (c.toNat = 32 ∨ c.toNat = 9 ∨ c.toNat = 13 ∨ c.toNat = 10) := by
  simp only [Char.isWhitespace, Bool.or_eq_true, decide_eq_true_eq, char_eq_iff]
  have h1 : (' ' : Char).toNat = 32 := by decide
  have h2 : ('\t' : Char).toNat = 9 := by decide
  have h3 : ('\x0d' : Char).toNat = 13 := by decide
  have h4 : ('\n' : Char).toNat = 10 := by decide
  rw [h1, h2, h3, h4]
  tauto

theorem ws_lowerChar (c : Char) : (lowerChar c).isWhitespace = c.isWhitespace := by
  unfold lowerChar
  split
  · next h =>
    have h2 : (Char.ofNat (c.toNat + 32)).toNat = c.toNat + 32 :=
      toNat_ofNat_of_valid _ (by omega)
    have ha : (Char.ofNat (c.toNat + 32)).isWhitespace = false := by
      rw [← Bool.not_eq_true, ws_iff, h2]; omega
    have hb : c.isWhitespace = false := by
      rw [← Bool.not_eq_true, ws_iff]; omega
    rw [ha, hb]
  · rfl

theorem dropWhile_eq_self_of_head?_false {α : Type} (p : α → Bool) (l : List α)
    (h : ∀ x, l.head? = some x → p x = false) : l.dropWhile p = l := by
  cases l with
  | nil => rfl
  | cons a as => simp [List.dropWhile_cons, h a rfl]

theorem dropWhile_idem {α : Type} (p : α → Bool) (l : List α) :
    (l.dropWhile p).dropWhile p = l.dropWhile p := by
  apply dropWhile_eq_self_of_head?_false
  intro x hx
  have h := List.head?_dropWhile_not p l
  rw [hx] at h
  exact h

theorem stripL_idem (l : List Char) : stripL (stripL l) = stripL l := by
  unfold stripL
  set ws := Char.isWhitespace with hws
  set A := l.dropWhile ws with hA
  set B := A.reverse.dropWhile ws with hB
  have show1 : B.reverse.dropWhile ws = B.reverse := by
    apply dropWhile_eq_self_of_head?_false
    intro x hx
    rw [List.head?_reverse] at hx
    obtain ⟨t, ht⟩ := List.dropWhile_suffix (l := A.reverse) ws
    have hAx : A.reverse.getLast? = some x := by
      rw [← ht, List.getLast?_append, hx]; rfl
    rw [List.getLast?_reverse] at hAx
    have h := List.head?_dropWhile_not ws l
    rw [← hA] at h
    rw [hAx] at h
    exact h
  rw [show1, List.reverse_reverse]
  have : B.dropWhile ws = B := by
    rw [hB]; exact dropWhile_idem ws A.reverse
  rw [this]

theorem stripL_map_lower (l : List Char) :
    stripL (l.map lowerChar) = (stripL l).map lowerChar := by
  have hp : (Char.isWhitespace ∘ lowerChar) = Char.isWhitespace := by
    funext c; simp [Function.comp, ws_lowerChar]
  simp [stripL, List.dropWhile_map, ← List.map_reverse, hp]

/-- `strip().lower()` is idempotent, so addresses written to the History
Store by `add_sent_emails_batch` are recognized unchanged by the
re-normalization in `get_sent_emails`. -/
theorem normalizeEmail_idem (s : String) :
    normalizeEmail (normalizeEmail s) = normalizeEmail s := by
  simp only [normalizeEmail, pyLower, pyStrip]
  congr 1
  show (stripL ((stripL s.data).map lowerChar)).map lowerChar = (stripL s.data).map lowerChar
  rw [stripL_map_lower, stripL_idem, List.map_map]
  congr 1
  funext c
  exact lowerChar_idem c

theorem dropWhile_eq_self_of_all_false {α : Type} (p : α → Bool) (l : List α)
    (h : ∀ x ∈ l, p x = false) : l.dropWhile p = l := by
  cases l with
  | nil => rfl
  | cons a as => simp [List.dropWhile_cons, h a (List.mem_cons_self a as)]

/-- `stripL` leaves a list with no whitespace anywhere unchanged. -/
theorem stripL_eq_self (l : List Char) (h : ∀ c ∈ l, c.isWhitespace = false) :
    stripL l = l := by
  unfold stripL
  rw [dropWhile_eq_self_of_all_false _ _ h]
  rw [dropWhile_eq_self_of_all_false _ _ (by intro c hc; exact h c (List.mem_reverse.mp hc))]
  exact List.reverse_reverse l

/-!
## Lemmas about `extract_variables`
-/

theorem dedupVars_mem_seen :
    ∀ (l seen : List String) (v : String), v ∈ dedupVars l seen → v ∉ seen := by
  intro l
  induction l with
  | nil => intro seen v hv; simp [dedupVars] at hv
  | cons a as ih =>
    intro seen v hv
    simp only [dedupVars] at hv
    split at hv
    · next hcond =>
      rcases List.mem_cons.mp hv with h | h
      · subst h; exact hcond.2
      · intro hseen
        exact ih (pyStrip a :: seen) v h (List.mem_cons_of_mem _ hseen)
    · exact ih seen v hv

theorem dedupVars_nodup : ∀ (l seen : List String), (dedupVars l seen).Nodup := by
  intro l
  induction l with
  | nil => intro seen; simp [dedupVars]
  | cons a as ih =>
    intro seen
    simp only [dedupVars]
    split
    · refine List.Nodup.cons ?_ (ih _)
      intro hmem
      exact dedupVars_mem_seen _ _ _ hmem (List.mem_cons_self _ _)
    · exact ih seen

theorem dedupVars_sublist : ∀ (l seen : List String), List.Sublist (dedupVars l seen) (l.map pyStrip) := by
  intro l
  induction l with
  | nil => intro seen; simp [dedupVars]
  | cons a as ih =>
    intro seen
    simp only [dedupVars, List.map_cons]
    split
    · exact List.Sublist.cons₂ _ (ih _)
    · exact List.Sublist.cons _ (ih _)

/-- **C7.** `extract_variables` returns the trimmed placeholder names with
duplicates collapsed, keeping first-occurrence order (it is a duplicate-free
sublist of the stripped match list); `\x7bx\x7d\x7bx\x7d\x7by\x7d` yields
`["x", "y"]`, empty braces yield nothing, and a nested brace pair yields no
match for the outer region (only the inner single-brace pair matches). -/
theorem extract_variables_ordered_unique (t : String) :
    (extract_variables t).Nodup ∧
    List.Sublist (extract_variables t) ((findallVars t).map pyStrip) ∧
    extract_variables "\x7bx\x7d\x7bx\x7d\x7by\x7d" = ["x", "y"] ∧
    extract_variables "\x7b\x7d" = [] ∧
    extract_variables "\x7ba\x7bb\x7dc\x7d" = ["b"] := by
  refine ⟨dedupVars_nodup _ _, dedupVars_sublist _ _, by decide, by decide, by decide⟩

/-!
## Lemmas about `render_template` and `render_email`
-/

theorem subAux_close (repl : List Char → List Char) (acc : List Char) (h : acc ≠ [])
    (cs : List Char) :
    subAux repl (some acc) (rbrace :: cs) = repl acc.reverse ++ subAux repl none cs := by
  rw [subAux.eq_def]
  simp only []
  rw [if_pos trivial, if_neg h, if_neg (show ¬ rbrace = lbrace by decide)]

theorem subAux_open_none (repl : List Char → List Char) (cs : List Char) :
    subAux repl none (lbrace :: cs) = subAux repl (some []) cs := by
  rw [subAux.eq_def]
  simp only []
  rw [if_pos trivial]

theorem subAux_nil_none (repl : List Char → List Char) : subAux repl none [] = [] := by
  rw [subAux.eq_def]

theorem subAux_accum (repl : List Char → List Char) :
    ∀ (xs acc rest : List Char), (∀ c ∈ xs, nonBrace c = true) →
      subAux repl (some acc) (xs ++ rest) = subAux repl (some (xs.reverse ++ acc)) rest := by
  intro xs
  induction xs with
  | nil => intro acc rest _; simp
  | cons c cs ih =>
    intro acc rest h
    have hc := h c (List.mem_cons_self c cs)
    simp only [nonBrace, Bool.and_eq_true, decide_eq_true_eq, bne_iff_ne, ne_eq] at hc
    simp only [List.cons_append, subAux]
    rw [if_neg hc.1, if_neg hc.2]
    show subAux repl (some (c :: acc)) (cs ++ rest) = _
    rw [ih (c :: acc) rest (fun x hx => h x (List.mem_cons_of_mem _ hx))]
    simp

/-- **C6.** `render_template` substitutes each placeholder by the data
value, else the default, else `""`, in a single pass: the general
single-placeholder law, the spec's three concrete examples, and the
no-recursive-resubstitution example (a default containing a placeholder is
inserted verbatim). -/
theorem render_template_single_pass :
    (∀ (v : String) (data defaults : Dict), v.data ≠ [] →
      (∀ c ∈ v.data, nonBrace c = true ∧ c.isWhitespace = false) →
      render_template ("\x7b" ++ v ++ "\x7d") data defaults =
        if dictGet data v = "" then dictGet defaults v else dictGet data v) ∧
    render_template "Hi \x7bn\x7d" [("n", "Ann")] [] = "Hi Ann" ∧
    render_template "Hi \x7bn\x7d" [("n", "")] [("n", "Friend")] = "Hi Friend" ∧
    render_template "Hi \x7bn\x7d" [] [] = "Hi " ∧
    render_template "Hi \x7bn\x7d" [("n", "")] [("n", "\x7bx\x7d there")] =
      "Hi \x7bx\x7d there" := by
  refine ⟨?_, by decide, by decide, by decide, by decide⟩
  intro v data defaults hne h
  unfold render_template
  have hdata : ("\x7b" ++ v ++ "\x7d").data = lbrace :: (v.data ++ [rbrace]) := by
    rw [String.data_append, String.data_append]
    rw [show ("\x7b" : String).data = [lbrace] from by decide]
    rw [show ("\x7d" : String).data = [rbrace] from by decide]
    simp
  rw [hdata]
  rw [subAux_open_none]
  rw [subAux_accum _ v.data [] [rbrace] (fun c hc => (h c hc).1)]
  rw [List.append_nil]
  rw [subAux_close _ _ (by simpa using hne) []]
  rw [subAux_nil_none, List.append_nil, List.reverse_reverse]
  simp only [replacer]
  rw [show String.mk v.data = v from rfl]
  have hstrip : pyStrip v = v := by
    unfold pyStrip
    rw [stripL_eq_self v.data (fun c hc => (h c hc).2)]
  rw [hstrip]

/-- **C5.** `render_email` switches to the alternate pair exactly when some
primary-template variable that is a key of `data` or `defaults` resolves
empty AND both alternates are non-empty; the switch is all-or-nothing, and
a variable occurring only in the alternates neither triggers the switch nor
gets a second-level fallback (it renders blank). -/
theorem render_email_alt_switch (st bt : String) (data defaults : Dict)
    (altS altB : Option String) :
    ((render_email st bt data defaults altS altB).used_alt = true ↔
      ((∃ v ∈ extract_variables st ++ extract_variables bt,
          (hasKey data v = true ∨ hasKey defaults v = true) ∧ dictGet data v = "") ∧
        pyTruthy altS = true ∧ pyTruthy altB = true)) ∧
    ((render_email st bt data defaults altS altB).used_alt = true →
      render_email st bt data defaults altS altB =
        ⟨render_template (altS.getD "") data defaults,
         render_template (altB.getD "") data defaults, true⟩) ∧
    ((render_email st bt data defaults altS altB).used_alt = false →
      render_email st bt data defaults altS altB =
        ⟨render_template st data defaults, render_template bt data defaults, false⟩) ∧
    render_email "Hi \x7bn\x7d" "B" [("n", "")] [] (some "Hi there") (some "bb") =
      ⟨"Hi there", "bb", true⟩ ∧
    render_email "Hi" "Yo" [("x", "")] [] (some "\x7bx\x7d!") (some "b") =
      ⟨"Hi", "Yo", false⟩ ∧
    render_email "Hi \x7bn\x7d" "B" [("n", "")] [] (some "Yo \x7bz\x7d!") (some "bb") =
      ⟨"Yo !", "bb", true⟩ := by
  have hcond : (render_email st bt data defaults altS altB).used_alt =
      (((extract_variables st ++ extract_variables bt).any fun v =>
          (hasKey data v || hasKey defaults v) && dictGet data v = "") &&
        pyTruthy altS && pyTruthy altB) := by
    simp only [render_email]
    by_cases h : (((extract_variables st ++ extract_variables bt).any fun v =>
        (hasKey data v || hasKey defaults v) && dictGet data v = "") &&
        pyTruthy altS && pyTruthy altB) = true
    · rw [if_pos h, h]
    · rw [if_neg h]
      exact ((Bool.not_eq_true _).mp h).symm
  refine ⟨?_, ?_, ?_, by decide, by decide, by decide⟩
  · rw [hcond]
    rw [Bool.and_eq_true, Bool.and_eq_true, List.any_eq_true]
    constructor
    · rintro ⟨⟨⟨v, hv, hp⟩, h1⟩, h2⟩
      rw [Bool.and_eq_true, Bool.or_eq_true, decide_eq_true_eq] at hp
      exact ⟨⟨v, hv, hp.1, hp.2⟩, h1, h2⟩
    · rintro ⟨⟨v, hv, hk, hd⟩, h1, h2⟩
      refine ⟨⟨⟨v, hv, ?_⟩, h1⟩, h2⟩
      rw [Bool.and_eq_true, Bool.or_eq_true, decide_eq_true_eq]
      exact ⟨hk, hd⟩
  · intro hu
    rw [hcond] at hu
    simp only [render_email]
    rw [if_pos hu]
  · intro hu
    rw [hcond] at hu
    simp only [render_email]
    rw [if_neg (by simp only [hu]; decide)]

/-- Witness for the single-placeholder law of `render_template`. -/
theorem render_template_single_pass_witness :
    render_template ("\x7b" ++ "n" ++ "\x7d") [("n", "Ann")] [] = "Ann" := by
  have h := render_template_single_pass.1 "n" [("n", "Ann")] [] (by decide) (by decide)
  rw [h]
  decide

/-- Witness for the alternate-switch law of `render_email`. -/
theorem render_email_alt_switch_witness :
    render_email "Hi \x7bn\x7d" "B" [("n", "")] [] (some "Hi there") (some "bb") =
      ⟨"Hi there", "bb", true⟩ := by
  have h := (render_email_alt_switch "Hi \x7bn\x7d" "B" [("n", "")] []
    (some "Hi there") (some "bb")).2.1 (by decide)
  rw [h]
  decide

/-!
## Lemmas about `analyze_data`
-/

theorem analyzeRows_counts (e : String) (cols : List String) :
    ∀ (rows : List Row) (idx : Nat),
      (analyzeRows e cols rows idx).total = rows.length ∧
      (analyzeRows e cols rows idx).no_email =
        rows.countP (fun r => classifyRow e cols r = RowClass.noEmail) ∧
      (analyzeRows e cols rows idx).has_empty =
        rows.countP (fun r => classifyRow e cols r = RowClass.hasEmpty) ∧
      (analyzeRows e cols rows idx).complete =
        rows.countP (fun r => classifyRow e cols r = RowClass.complete) := by
  intro rows
  induction rows with
  | nil => intro idx; simp [analyzeRows]
  | cons r rs ih =>
    intro idx
    obtain ⟨iht, ihn, ihh, ihc⟩ := ih (idx + 1)
    by_cases h1 : pyStrip (cellStr (rowGet r e)) = "" ∨ pyStrip (cellStr (rowGet r e)) = "nan"
    · have hcl : classifyRow e cols r = RowClass.noEmail := by
        simp only [classifyRow]; rw [if_pos h1]
      simp only [analyzeRows, if_pos h1, List.countP_cons, List.length_cons, hcl]
      refine ⟨by simp [iht], ?_, ?_, ?_⟩ <;> simp [ihn, ihh, ihc]
    · by_cases h2 : rowEmptyVars cols r ≠ []
      · have hcl : classifyRow e cols r = RowClass.hasEmpty := by
          simp only [classifyRow]; rw [if_neg h1, if_pos h2]
        simp only [analyzeRows, if_neg h1, if_pos h2, List.countP_cons, List.length_cons, hcl]
        refine ⟨by simp [iht], ?_, ?_, ?_⟩ <;> simp [ihn, ihh, ihc]
      · have hcl : classifyRow e cols r = RowClass.complete := by
          simp only [classifyRow]; rw [if_neg h1, if_neg h2]
        simp only [analyzeRows, if_neg h1, if_neg h2, List.countP_cons, List.length_cons, hcl]
        refine ⟨by simp [iht], ?_, ?_, ?_⟩ <;> simp [ihn, ihh, ihc]

/-- Each row falls in exactly one class, so the three class counts sum to
the row count. -/
theorem countP_classify_sum (e : String) (cols : List String) (rows : List Row) :
    rows.countP (fun r => classifyRow e cols r = RowClass.complete) +
      rows.countP (fun r => classifyRow e cols r = RowClass.hasEmpty) +
      rows.countP (fun r => classifyRow e cols r = RowClass.noEmail) = rows.length := by
  induction rows with
  | nil => simp
  | cons r rs ih =>
    simp only [List.countP_cons, List.length_cons]
    rcases hcl : classifyRow e cols r <;> simp [hcl] <;> omega

/-- **C8.** `analyze_data` classifies each row into exactly one of
no-email / has-empty / complete (the three counters count the three cells
of the per-row partition `classifyRow`), so the counts are mutually
exclusive, exhaustive, and sum to the row total. -/
theorem analyze_data_partition (df : Frame) (used : List String) (email_column : String) :
    (analyze_data df used email_column).total = df.rows.length ∧
    (analyze_data df used email_column).no_email =
      df.rows.countP (fun r =>
        classifyRow email_column (used.filter (· ∈ df.columns)) r = RowClass.noEmail) ∧
    (analyze_data df used email_column).has_empty =
      df.rows.countP (fun r =>
        classifyRow email_column (used.filter (· ∈ df.columns)) r = RowClass.hasEmpty) ∧
    (analyze_data df used email_column).complete =
      df.rows.countP (fun r =>
        classifyRow email_column (used.filter (· ∈ df.columns)) r = RowClass.complete) ∧
    (analyze_data df used email_column).complete +
      (analyze_data df used email_column).has_empty +
      (analyze_data df used email_column).no_email =
      (analyze_data df used email_column).total := by
  obtain ⟨ht, hn, hh, hc⟩ :=
    analyzeRows_counts email_column (used.filter (· ∈ df.columns)) df.rows 0
  refine ⟨ht, hn, hh, hc, ?_⟩
  show (analyzeRows email_column (used.filter (· ∈ df.columns)) df.rows 0).complete +
      (analyzeRows email_column (used.filter (· ∈ df.columns)) df.rows 0).has_empty +
      (analyzeRows email_column (used.filter (· ∈ df.columns)) df.rows 0).no_email =
      (analyzeRows email_column (used.filter (· ∈ df.columns)) df.rows 0).total
  rw [ht, hn, hh, hc]
  exact countP_classify_sum email_column (used.filter (· ∈ df.columns)) df.rows

/-- **C10.** `_get_remaining` is the clamped difference
`max(0, daily_limit - daily_sent_count)`: it is never negative, it is zero
whenever the counter has reached or passed the limit, and the dispatch
loop's halt check `_get_remaining() <= 0` fires exactly when
`daily_limit ≤ daily_sent_count`, halting every remaining candidate. -/
theorem remaining_quota_clamped :
    (∀ l s : Int, _get_remaining l s = max 0 (l - s) ∧ 0 ≤ _get_remaining l s ∧
      (l ≤ s → _get_remaining l s = 0) ∧ (_get_remaining l s ≤ 0 ↔ l ≤ s)) ∧
    ∀ (L : Int) (oracle : Nat → SendOutcome) (c : Candidate) (rest : List Candidate)
      (i : Nat) (st : LoopSt), _get_remaining L st.sent ≤ 0 →
      sendLoopAux L oracle (c :: rest) i st =
        { st with
            results := st.results ++ markEntries st.clock haltStatus (haltNote L) (c :: rest)
            skipped_count := st.skipped_count + (c :: rest).length
            clock := st.clock + (c :: rest).length } := by
  constructor
  · intro l s
    unfold _get_remaining
    refine ⟨rfl, ?_, ?_, ?_⟩ <;> omega
  · intro L oracle c rest i st h
    rw [sendLoopAux.eq_def]
    simp only [if_pos h]

/-- Witness for the clamped-remaining law and the halt check. -/
theorem remaining_quota_clamped_witness :
    _get_remaining 5 7 = 0 ∧
    (sendLoopAux 2 okOracle [mkCand "a@x.com"] 0 (initSt 2)).skipped_count = 1 := by
  constructor
  · exact (remaining_quota_clamped.1 5 7).2.2.1 (by decide)
  · have h := remaining_quota_clamped.2 2 okOracle (mkCand "a@x.com") [] 0 (initSt 2)
      (by decide)
    rw [h]
    decide


theorem stepHalt (L : Int) (oracle : Nat → SendOutcome) (c : Candidate) (rest : List Candidate)
    (i : Nat) (st : LoopSt) (h : _get_remaining L st.sent ≤ 0) :
    sendLoopAux L oracle (c :: rest) i st =
      { st with
          results := st.results ++ markEntries st.clock haltStatus (haltNote L) (c :: rest)
          skipped_count := st.skipped_count + (c :: rest).length
          clock := st.clock + (c :: rest).length } := by
  rw [sendLoopAux.eq_def]
  simp only []
  rw [if_pos h]

theorem stepRaised (L : Int) (oracle : Nat → SendOutcome) (c : Candidate) (rest : List Candidate)
    (i : Nat) (st : LoopSt) (m : String) (h : ¬ _get_remaining L st.sent ≤ 0)
    (ho : oracle i = SendOutcome.raised m) :
    sendLoopAux L oracle (c :: rest) i st =
      { st with
          results := st.results ++ markEntries st.clock failStatus m (c :: rest)
          fail_count := st.fail_count + (c :: rest).length
          clock := st.clock + (c :: rest).length
          aborted := some m } := by
  rw [sendLoopAux.eq_def]
  simp only []
  rw [if_neg h, ho]

theorem stepFail (L : Int) (oracle : Nat → SendOutcome) (c : Candidate) (rest : List Candidate)
    (i : Nat) (st : LoopSt) (m : String) (h : ¬ _get_remaining L st.sent ≤ 0)
    (ho : oracle i = SendOutcome.fail m) :
    sendLoopAux L oracle (c :: rest) i st =
      sendLoopAux L oracle rest (i + 1)
        { st with
            results := st.results ++ [⟨st.clock, c.toAddr, failStatus, m⟩]
            clock := st.clock + 1
            fail_count := st.fail_count + 1 } := by
  rw [sendLoopAux.eq_def]
  simp only []
  rw [if_neg h, ho]

theorem stepOkFlush (L : Int) (oracle : Nat → SendOutcome) (c : Candidate) (rest : List Candidate)
    (i : Nat) (st : LoopSt) (h : ¬ _get_remaining L st.sent ≤ 0)
    (ho : oracle i = SendOutcome.ok) (hb : (st.batch ++ [c.toAddr]).length ≥ 10) :
    sendLoopAux L oracle (c :: rest) i st =
      sendLoopAux L oracle rest (i + 1)
        { st with
            results := st.results ++ [⟨st.clock, c.toAddr, okStatus, c.note⟩]
            clock := st.clock + 1
            success_count := st.success_count + 1
            sent := st.sent + 1
            flushed := st.flushed ++ [st.batch ++ [c.toAddr]]
            batch := [] } := by
  rw [sendLoopAux.eq_def]
  simp only []
  rw [if_neg h, ho]
  simp only []
  rw [if_pos hb]

theorem stepOkNoFlush (L : Int) (oracle : Nat → SendOutcome) (c : Candidate) (rest : List Candidate)
    (i : Nat) (st : LoopSt) (h : ¬ _get_remaining L st.sent ≤ 0)
    (ho : oracle i = SendOutcome.ok) (hb : ¬ (st.batch ++ [c.toAddr]).length ≥ 10) :
    sendLoopAux L oracle (c :: rest) i st =
      sendLoopAux L oracle rest (i + 1)
        { st with
            results := st.results ++ [⟨st.clock, c.toAddr, okStatus, c.note⟩]
            clock := st.clock + 1
            success_count := st.success_count + 1
            sent := st.sent + 1
            batch := st.batch ++ [c.toAddr] } := by
  rw [sendLoopAux.eq_def]
  simp only []
  rw [if_neg h, ho]
  simp only []
  rw [if_neg hb]


theorem markEntries_map_pair (clock : Nat) (status note : String) (cs : List Candidate) :
    (markEntries clock status note cs).map (fun e => (e.recipient, e.status)) =
      cs.map (fun c => (c.toAddr, status)) := by
  induction cs generalizing clock with
  | nil => rfl
  | cons c rest ih => simp [markEntries, ih]

theorem markEntries_map_recipient (clock : Nat) (status note : String) (cs : List Candidate) :
    (markEntries clock status note cs).map Entry.recipient = cs.map Candidate.toAddr := by
  induction cs generalizing clock with
  | nil => rfl
  | cons c rest ih => simp [markEntries, ih]

theorem markEntries_map_tstamp (clock : Nat) (status note : String) (cs : List Candidate) :
    (markEntries clock status note cs).map Entry.tstamp = List.range' clock cs.length := by
  induction cs generalizing clock with
  | nil => rfl
  | cons c rest ih => simp [markEntries, ih, List.range'_succ]

theorem markEntries_status (clock : Nat) (status note : String) (cs : List Candidate) :
    ∀ e ∈ markEntries clock status note cs, e.status = status := by
  induction cs generalizing clock with
  | nil => intro e he; simp [markEntries] at he
  | cons c rest ih =>
    intro e he
    rcases List.mem_cons.mp he with h | h
    · rw [h]
    · exact ih (clock + 1) e h

theorem sendLoop_sent_succ (L : Int) (oracle : Nat → SendOutcome) :
    ∀ (es : List Candidate) (i : Nat) (st : LoopSt),
      (sendLoopAux L oracle es i st).sent - st.sent =
        (sendLoopAux L oracle es i st).success_count - st.success_count ∧
      st.success_count ≤ (sendLoopAux L oracle es i st).success_count := by
  intro es
  induction es with
  | nil => intro i st; simp [sendLoopAux]
  | cons c rest ih =>
    intro i st
    by_cases hq : _get_remaining L st.sent ≤ 0
    · rw [stepHalt L oracle c rest i st hq]
      simp
    · cases ho : oracle i with
      | raised m => rw [stepRaised L oracle c rest i st m hq ho]; simp
      | fail m =>
        rw [stepFail L oracle c rest i st m hq ho]
        have := ih (i + 1)
          { st with
              results := st.results ++ [⟨st.clock, c.toAddr, failStatus, m⟩]
              clock := st.clock + 1
              fail_count := st.fail_count + 1 }
        simp only at this ⊢
        omega
      | ok =>
        by_cases hb : (st.batch ++ [c.toAddr]).length ≥ 10
        · rw [stepOkFlush L oracle c rest i st hq ho hb]
          have := ih (i + 1)
            { st with
                results := st.results ++ [⟨st.clock, c.toAddr, okStatus, c.note⟩]
                clock := st.clock + 1
                success_count := st.success_count + 1
                sent := st.sent + 1
                flushed := st.flushed ++ [st.batch ++ [c.toAddr]]
                batch := [] }
          simp only at this ⊢
          omega
        · rw [stepOkNoFlush L oracle c rest i st hq ho hb]
          have := ih (i + 1)
            { st with
                results := st.results ++ [⟨st.clock, c.toAddr, okStatus, c.note⟩]
                clock := st.clock + 1
                success_count := st.success_count + 1
                sent := st.sent + 1
                batch := st.batch ++ [c.toAddr] }
          simp only at this ⊢
          omega


theorem successRecipients_append (a b : List Entry) :
    successRecipients (a ++ b) = successRecipients a ++ successRecipients b := by
  simp [successRecipients, List.filter_append]

theorem successRecipients_markEntries (clock : Nat) (status note : String)
    (cs : List Candidate) (h : status ≠ okStatus) :
    successRecipients (markEntries clock status note cs) = [] := by
  have : (markEntries clock status note cs).filter (fun e => e.status = okStatus) = [] := by
    rw [List.filter_eq_nil_iff]
    intro e he
    have := markEntries_status clock status note cs e he
    simp [this, h]
  simp [successRecipients, this]

theorem successRecipients_ok (a : List Entry) (t : Nat) (r n : String) :
    successRecipients (a ++ [⟨t, r, okStatus, n⟩]) = successRecipients a ++ [r] := by
  rw [successRecipients_append]
  simp [successRecipients, List.filter_cons, okStatus]

theorem successRecipients_fail (a : List Entry) (t : Nat) (r n : String) :
    successRecipients (a ++ [⟨t, r, failStatus, n⟩]) = successRecipients a := by
  rw [successRecipients_append]
  have : failStatus ≠ okStatus := by decide
  simp [successRecipients, List.filter_cons, this]

theorem sendLoop_flush (L : Int) (oracle : Nat → SendOutcome) :
    ∀ (es : List Candidate) (i : Nat) (st : LoopSt),
      st.flushed.flatten ++ st.batch = successRecipients st.results →
      (sendLoopAux L oracle es i st).flushed.flatten ++ (sendLoopAux L oracle es i st).batch =
        successRecipients (sendLoopAux L oracle es i st).results := by
  intro es
  induction es with
  | nil => intro i st h; simpa [sendLoopAux] using h
  | cons c rest ih =>
    intro i st h
    by_cases hq : _get_remaining L st.sent ≤ 0
    · rw [stepHalt L oracle c rest i st hq]
      simp only [successRecipients_append]
      rw [successRecipients_markEntries _ _ _ _ (by decide)]
      simpa using h
    · cases ho : oracle i with
      | raised m =>
        rw [stepRaised L oracle c rest i st m hq ho]
        simp only [successRecipients_append]
        rw [successRecipients_markEntries _ _ _ _ (by decide)]
        simpa using h
      | fail m =>
        rw [stepFail L oracle c rest i st m hq ho]
        apply ih
        simp only [successRecipients_fail]
        exact h
      | ok =>
        by_cases hb : (st.batch ++ [c.toAddr]).length ≥ 10
        · rw [stepOkFlush L oracle c rest i st hq ho hb]
          apply ih
          simp only [successRecipients_ok, List.flatten_append, List.flatten_cons,
            List.flatten_nil, List.append_nil, List.append_assoc]
          rw [← List.append_assoc, h]
        · rw [stepOkNoFlush L oracle c rest i st hq ho hb]
          apply ih
          simp only [successRecipients_ok]
          rw [← List.append_assoc, h]


theorem sendLoop_sent_le (L : Int) (oracle : Nat → SendOutcome) :
    ∀ (es : List Candidate) (i : Nat) (st : LoopSt),
      (sendLoopAux L oracle es i st).sent ≤ max st.sent L := by
  intro es
  induction es with
  | nil => intro i st; simp [sendLoopAux]
  | cons c rest ih =>
    intro i st
    by_cases hq : _get_remaining L st.sent ≤ 0
    · rw [stepHalt L oracle c rest i st hq]; simp
    · have hlt : st.sent < L := by
        unfold _get_remaining at hq; omega
      cases ho : oracle i with
      | raised m => rw [stepRaised L oracle c rest i st m hq ho]; simp
      | fail m =>
        rw [stepFail L oracle c rest i st m hq ho]
        have := ih (i + 1)
          { st with
              results := st.results ++ [⟨st.clock, c.toAddr, failStatus, m⟩]
              clock := st.clock + 1
              fail_count := st.fail_count + 1 }
        simp only at this ⊢
        omega
      | ok =>
        by_cases hb : (st.batch ++ [c.toAddr]).length ≥ 10
        · rw [stepOkFlush L oracle c rest i st hq ho hb]
          have := ih (i + 1)
            { st with
                results := st.results ++ [⟨st.clock, c.toAddr, okStatus, c.note⟩]
                clock := st.clock + 1
                success_count := st.success_count + 1
                sent := st.sent + 1
                flushed := st.flushed ++ [st.batch ++ [c.toAddr]]
                batch := [] }
          simp only at this ⊢
          omega
        · rw [stepOkNoFlush L oracle c rest i st hq ho hb]
          have := ih (i + 1)
            { st with
                results := st.results ++ [⟨st.clock, c.toAddr, okStatus, c.note⟩]
                clock := st.clock + 1
                success_count := st.success_count + 1
                sent := st.sent + 1
                batch := st.batch ++ [c.toAddr] }
          simp only at this ⊢
          omega

theorem sendLoop_batch (L : Int) (oracle : Nat → SendOutcome) :
    ∀ (es : List Candidate) (i : Nat) (st : LoopSt),
      st.batch.length ≤ 9 → (∀ b ∈ st.flushed, b.length = 10) →
      (sendLoopAux L oracle es i st).batch.length ≤ 9 ∧
        ∀ b ∈ (sendLoopAux L oracle es i st).flushed, b.length = 10 := by
  intro es
  induction es with
  | nil => intro i st h1 h2; simp only [sendLoopAux]; exact ⟨h1, h2⟩
  | cons c rest ih =>
    intro i st h1 h2
    by_cases hq : _get_remaining L st.sent ≤ 0
    · rw [stepHalt L oracle c rest i st hq]; exact ⟨h1, h2⟩
    · cases ho : oracle i with
      | raised m => rw [stepRaised L oracle c rest i st m hq ho]; exact ⟨h1, h2⟩
      | fail m =>
        rw [stepFail L oracle c rest i st m hq ho]
        exact ih (i + 1) _ h1 h2
      | ok =>
        by_cases hb : (st.batch ++ [c.toAddr]).length ≥ 10
        · rw [stepOkFlush L oracle c rest i st hq ho hb]
          apply ih (i + 1)
          · simp
          · intro b hbm
            simp only at hbm
            rcases List.mem_append.mp hbm with hm | hm
            · exact h2 b hm
            · have : b = st.batch ++ [c.toAddr] := by simpa using hm
              rw [this]
              simp only [List.length_append, List.length_cons, List.length_nil] at hb ⊢
              omega
        · rw [stepOkNoFlush L oracle c rest i st hq ho hb]
          apply ih (i + 1)
          · simp only [List.length_append, List.length_cons, List.length_nil] at hb ⊢
            omega
          · exact h2

theorem sendLoop_recipients (L : Int) (oracle : Nat → SendOutcome) :
    ∀ (es : List Candidate) (i : Nat) (st : LoopSt),
      (sendLoopAux L oracle es i st).results.map Entry.recipient =
        st.results.map Entry.recipient ++ es.map Candidate.toAddr := by
  intro es
  induction es with
  | nil => intro i st; simp [sendLoopAux]
  | cons c rest ih =>
    intro i st
    by_cases hq : _get_remaining L st.sent ≤ 0
    · rw [stepHalt L oracle c rest i st hq]
      simp [markEntries_map_recipient]
    · cases ho : oracle i with
      | raised m =>
        rw [stepRaised L oracle c rest i st m hq ho]
        simp [markEntries_map_recipient]
      | fail m =>
        rw [stepFail L oracle c rest i st m hq ho]
        rw [ih]
        simp
      | ok =>
        by_cases hb : (st.batch ++ [c.toAddr]).length ≥ 10
        · rw [stepOkFlush L oracle c rest i st hq ho hb]
          rw [ih]
          simp
        · rw [stepOkNoFlush L oracle c rest i st hq ho hb]
          rw [ih]
          simp

theorem range_append_range' (n m : Nat) :
    List.range n ++ List.range' n m = List.range (n + m) := by
  rw [List.range_add, List.range'_eq_map_range]

theorem sendLoop_tstamps (L : Int) (oracle : Nat → SendOutcome) :
    ∀ (es : List Candidate) (i : Nat) (st : LoopSt),
      st.results.map Entry.tstamp = List.range st.clock →
      (sendLoopAux L oracle es i st).results.map Entry.tstamp =
        List.range (sendLoopAux L oracle es i st).clock := by
  intro es
  induction es with
  | nil => intro i st h; simpa [sendLoopAux] using h
  | cons c rest ih =>
    intro i st h
    by_cases hq : _get_remaining L st.sent ≤ 0
    · rw [stepHalt L oracle c rest i st hq]
      simp only [List.map_append, markEntries_map_tstamp, h]
      exact range_append_range' st.clock (c :: rest).length
    · cases ho : oracle i with
      | raised m =>
        rw [stepRaised L oracle c rest i st m hq ho]
        simp only [List.map_append, markEntries_map_tstamp, h]
        exact range_append_range' st.clock (c :: rest).length
      | fail m =>
        rw [stepFail L oracle c rest i st m hq ho]
        apply ih
        simp only [List.map_append, h, List.map_cons, List.map_nil]
        rw [← List.range_succ]
      | ok =>
        by_cases hb : (st.batch ++ [c.toAddr]).length ≥ 10
        · rw [stepOkFlush L oracle c rest i st hq ho hb]
          apply ih
          simp only [List.map_append, h, List.map_cons, List.map_nil]
          rw [← List.range_succ]
        · rw [stepOkNoFlush L oracle c rest i st hq ho hb]
          apply ih
          simp only [List.map_append, h, List.map_cons, List.map_nil]
          rw [← List.range_succ]

theorem sendLoop_statuses (L : Int) (oracle : Nat → SendOutcome) :
    ∀ (es : List Candidate) (i : Nat) (st : LoopSt),
      (∀ e ∈ st.results, e.status = okStatus ∨ e.status = failStatus ∨ e.status = haltStatus) →
      ∀ e ∈ (sendLoopAux L oracle es i st).results,
        e.status = okStatus ∨ e.status = failStatus ∨ e.status = haltStatus := by
  intro es
  induction es with
  | nil => intro i st h; simpa [sendLoopAux] using h
  | cons c rest ih =>
    intro i st h
    by_cases hq : _get_remaining L st.sent ≤ 0
    · rw [stepHalt L oracle c rest i st hq]
      intro e he
      rcases List.mem_append.mp he with hm | hm
      · exact h e hm
      · exact Or.inr (Or.inr (markEntries_status _ _ _ _ e hm))
    · cases ho : oracle i with
      | raised m =>
        rw [stepRaised L oracle c rest i st m hq ho]
        intro e he
        rcases List.mem_append.mp he with hm | hm
        · exact h e hm
        · exact Or.inr (Or.inl (markEntries_status _ _ _ _ e hm))
      | fail m =>
        rw [stepFail L oracle c rest i st m hq ho]
        apply ih
        intro e he
        simp only at he
        rcases List.mem_append.mp he with hm | hm
        · exact h e hm
        · have : e = ⟨st.clock, c.toAddr, failStatus, m⟩ := by simpa using hm
          rw [this]
          exact Or.inr (Or.inl rfl)
      | ok =>
        by_cases hb : (st.batch ++ [c.toAddr]).length ≥ 10
        · rw [stepOkFlush L oracle c rest i st hq ho hb]
          apply ih
          intro e he
          simp only at he
          rcases List.mem_append.mp he with hm | hm
          · exact h e hm
          · have : e = ⟨st.clock, c.toAddr, okStatus, c.note⟩ := by simpa using hm
            rw [this]
            exact Or.inl rfl
        · rw [stepOkNoFlush L oracle c rest i st hq ho hb]
          apply ih
          intro e he
          simp only at he
          rcases List.mem_append.mp he with hm | hm
          · exact h e hm
          · have : e = ⟨st.clock, c.toAddr, okStatus, c.note⟩ := by simpa using hm
            rw [this]
            exact Or.inl rfl


theorem sendLoop_allok (L : Int) (oracle : Nat → SendOutcome)
    (hok : ∀ j, oracle j = SendOutcome.ok) :
    ∀ (es : List Candidate) (i : Nat) (st : LoopSt),
      (sendLoopAux L oracle es i st).results.map (fun e => (e.recipient, e.status)) =
        st.results.map (fun e => (e.recipient, e.status)) ++
          (es.take (L - st.sent).toNat).map (fun c => (c.toAddr, okStatus)) ++
          (es.drop (L - st.sent).toNat).map (fun c => (c.toAddr, haltStatus)) := by
  intro es
  induction es with
  | nil => intro i st; simp [sendLoopAux]
  | cons c rest ih =>
    intro i st
    by_cases hq : _get_remaining L st.sent ≤ 0
    · have h0 : (L - st.sent).toNat = 0 := by
        unfold _get_remaining at hq; omega
      rw [stepHalt L oracle c rest i st hq, h0]
      simp [markEntries_map_pair]
    · have hpos : 0 < L - st.sent := by
        unfold _get_remaining at hq; omega
      have hsucc : (L - st.sent).toNat = (L - (st.sent + 1)).toNat + 1 := by omega
      have ho := hok i
      by_cases hb : (st.batch ++ [c.toAddr]).length ≥ 10
      · rw [stepOkFlush L oracle c rest i st hq ho hb]
        rw [ih (i + 1) _]
        simp only [hsucc, List.take_succ_cons, List.drop_succ_cons]
        simp
      · rw [stepOkNoFlush L oracle c rest i st hq ho hb]
        rw [ih (i + 1) _]
        simp only [hsucc, List.take_succ_cons, List.drop_succ_cons]
        simp

theorem dispatch_proj (L s0 : Int) (oracle : Nat → SendOutcome) (es : List Candidate) :
    (dispatch L s0 oracle es).results = (sendLoopAux L oracle es 0 (initSt s0)).results ∧
    (dispatch L s0 oracle es).sent = (sendLoopAux L oracle es 0 (initSt s0)).sent ∧
    (dispatch L s0 oracle es).success_count =
      (sendLoopAux L oracle es 0 (initSt s0)).success_count ∧
    (dispatch L s0 oracle es).flushed.flatten =
      (sendLoopAux L oracle es 0 (initSt s0)).flushed.flatten ++
        (sendLoopAux L oracle es 0 (initSt s0)).batch ∧
    (dispatch L s0 oracle es).batch = [] := by
  unfold dispatch
  by_cases hb : (sendLoopAux L oracle es 0 (initSt s0)).batch ≠ []
  · rw [if_pos hb]; simp
  · rw [if_neg hb]
    push_neg at hb
    simp [hb]

theorem dispatch_flushed_successes (L s0 : Int) (oracle : Nat → SendOutcome)
    (es : List Candidate) :
    (dispatch L s0 oracle es).flushed.flatten =
      successRecipients (dispatch L s0 oracle es).results := by
  obtain ⟨hr, _, _, hf, _⟩ := dispatch_proj L s0 oracle es
  rw [hr, hf]
  exact sendLoop_flush L oracle es 0 (initSt s0) (by simp [initSt, successRecipients])

theorem dispatch_sent_succ (L s0 : Int) (oracle : Nat → SendOutcome) (es : List Candidate) :
    (dispatch L s0 oracle es).sent = s0 + (dispatch L s0 oracle es).success_count ∧
    0 ≤ (dispatch L s0 oracle es).success_count ∧
    (dispatch L s0 oracle es).success_count ≤ max 0 (L - s0) := by
  obtain ⟨_, hs, hsc, _, _⟩ := dispatch_proj L s0 oracle es
  have h1 := sendLoop_sent_succ L oracle es 0 (initSt s0)
  have h2 := sendLoop_sent_le L oracle es 0 (initSt s0)
  rw [hs, hsc]
  rw [show (initSt s0).sent = s0 from rfl] at h1 h2
  rw [show (initSt s0).success_count = 0 from rfl] at h1
  omega

theorem dispatch_recipients (L s0 : Int) (oracle : Nat → SendOutcome) (es : List Candidate) :
    (dispatch L s0 oracle es).results.map Entry.recipient = es.map Candidate.toAddr := by
  obtain ⟨hr, _⟩ := dispatch_proj L s0 oracle es
  rw [hr]
  have h := sendLoop_recipients L oracle es 0 (initSt s0)
  simpa [initSt] using h

theorem dispatch_tstamps (L s0 : Int) (oracle : Nat → SendOutcome) (es : List Candidate) :
    (dispatch L s0 oracle es).results.map Entry.tstamp = List.range es.length := by
  obtain ⟨hr, _⟩ := dispatch_proj L s0 oracle es
  rw [hr]
  have h := sendLoop_tstamps L oracle es 0 (initSt s0) (by simp [initSt])
  have hlen : (sendLoopAux L oracle es 0 (initSt s0)).results.length = es.length := by
    have h2 := sendLoop_recipients L oracle es 0 (initSt s0)
    have := congrArg List.length h2
    simpa [initSt] using this
  have hclock : (sendLoopAux L oracle es 0 (initSt s0)).clock = es.length := by
    have := congrArg List.length h
    simp only [List.length_map, List.length_range] at this
    omega
  rw [h, hclock]

theorem dispatch_statuses (L s0 : Int) (oracle : Nat → SendOutcome) (es : List Candidate) :
    ∀ e ∈ (dispatch L s0 oracle es).results,
      e.status = okStatus ∨ e.status = failStatus ∨ e.status = haltStatus := by
  obtain ⟨hr, _⟩ := dispatch_proj L s0 oracle es
  rw [hr]
  exact sendLoop_statuses L oracle es 0 (initSt s0) (by simp [initSt])

theorem dispatch_allok (L s0 : Int) (oracle : Nat → SendOutcome) (es : List Candidate)
    (hok : ∀ j, oracle j = SendOutcome.ok) :
    (dispatch L s0 oracle es).results.map (fun e => (e.recipient, e.status)) =
      (es.take (L - s0).toNat).map (fun c => (c.toAddr, okStatus)) ++
        (es.drop (L - s0).toNat).map (fun c => (c.toAddr, haltStatus)) := by
  obtain ⟨hr, _⟩ := dispatch_proj L s0 oracle es
  rw [hr]
  have h := sendLoop_allok L oracle hok es 0 (initSt s0)
  simpa [initSt] using h

theorem okCount_le (oracle : Nat → SendOutcome) : ∀ (n i : Nat), okCount oracle i n ≤ n := by
  intro n
  induction n with
  | zero => intro i; simp [okCount]
  | succ m ih =>
    intro i
    have := ih (i + 1)
    simp only [okCount]
    split <;> omega

theorem sendLoop_noraise (L : Int) (oracle : Nat → SendOutcome)
    (hnr : ∀ (j : Nat) (m : String), oracle j ≠ SendOutcome.raised m) :
    ∀ (es : List Candidate) (i : Nat) (st : LoopSt),
      ∃ A ≤ es.length,
        (sendLoopAux L oracle es i st).results.map (fun e => (e.recipient, e.status)) =
          st.results.map (fun e => (e.recipient, e.status)) ++
            attemptEntries oracle i (es.take A) ++
            (es.drop A).map (fun c => (c.toAddr, haltStatus)) ∧
        (sendLoopAux L oracle es i st).success_count =
          st.success_count + (okCount oracle i A : Int) ∧
        (A < es.length → okCount oracle i A = (L - st.sent).toNat) ∧
        (A = es.length → okCount oracle i A ≤ (L - st.sent).toNat) := by
  intro es
  induction es with
  | nil =>
    intro i st
    refine ⟨0, Nat.le_refl 0, ?_, ?_, ?_, ?_⟩
    · simp [sendLoopAux, attemptEntries]
    · simp [sendLoopAux, okCount]
    · intro h; simp at h
    · intro _; simp [okCount]
  | cons c rest ih =>
    intro i st
    by_cases hq : _get_remaining L st.sent ≤ 0
    · have h0 : (L - st.sent).toNat = 0 := by
        unfold _get_remaining at hq; omega
      refine ⟨0, Nat.zero_le _, ?_, ?_, ?_, ?_⟩
      · rw [stepHalt L oracle c rest i st hq]
        simp [markEntries_map_pair, attemptEntries]
      · rw [stepHalt L oracle c rest i st hq]
        simp [okCount]
      · intro _; simp [okCount, h0]
      · intro _; simp [okCount]
    · have hpos : 0 < L - st.sent := by
        unfold _get_remaining at hq; omega
      cases ho : oracle i with
      | raised m => exact absurd ho (hnr i m)
      | ok =>
        by_cases hb : (st.batch ++ [c.toAddr]).length ≥ 10
        · obtain ⟨A', hA', hrep', hsucc', hfire', hfull'⟩ := ih (i + 1)
            { st with
                results := st.results ++ [⟨st.clock, c.toAddr, okStatus, c.note⟩]
                clock := st.clock + 1
                success_count := st.success_count + 1
                sent := st.sent + 1
                flushed := st.flushed ++ [st.batch ++ [c.toAddr]]
                batch := [] }
          replace hsucc' :
              (sendLoopAux L oracle rest (i + 1)
                { st with
                    results := st.results ++ [⟨st.clock, c.toAddr, okStatus, c.note⟩]
                    clock := st.clock + 1
                    success_count := st.success_count + 1
                    sent := st.sent + 1
                    flushed := st.flushed ++ [st.batch ++ [c.toAddr]]
                    batch := [] }).success_count =
                st.success_count + 1 + (okCount oracle (i + 1) A' : Int) := hsucc'
          replace hfire' : A' < rest.length →
              okCount oracle (i + 1) A' = (L - (st.sent + 1)).toNat := hfire'
          replace hfull' : A' = rest.length →
              okCount oracle (i + 1) A' ≤ (L - (st.sent + 1)).toNat := hfull'
          refine ⟨A' + 1, by simpa using Nat.succ_le_succ hA', ?_, ?_, ?_, ?_⟩
          · rw [stepOkFlush L oracle c rest i st hq ho hb, hrep']
            simp [attemptEntries, ho, statusOfOutcome, List.take_succ_cons,
              List.drop_succ_cons]
          · rw [stepOkFlush L oracle c rest i st hq ho hb, hsucc']
            simp [okCount, ho]
            omega
          · intro hlt
            have hlt' : A' < rest.length := by simp at hlt; omega
            have h2 := hfire' hlt'
            simp [okCount, ho]
            omega
          · intro heq
            have heq' : A' = rest.length := by simp at heq; omega
            have h2 := hfull' heq'
            simp [okCount, ho]
            omega
        · obtain ⟨A', hA', hrep', hsucc', hfire', hfull'⟩ := ih (i + 1)
            { st with
                results := st.results ++ [⟨st.clock, c.toAddr, okStatus, c.note⟩]
                clock := st.clock + 1
                success_count := st.success_count + 1
                sent := st.sent + 1
                batch := st.batch ++ [c.toAddr] }
          replace hsucc' :
              (sendLoopAux L oracle rest (i + 1)
                { st with
                    results := st.results ++ [⟨st.clock, c.toAddr, okStatus, c.note⟩]
                    clock := st.clock + 1
                    success_count := st.success_count + 1
                    sent := st.sent + 1
                    batch := st.batch ++ [c.toAddr] }).success_count =
                st.success_count + 1 + (okCount oracle (i + 1) A' : Int) := hsucc'
          replace hfire' : A' < rest.length →
              okCount oracle (i + 1) A' = (L - (st.sent + 1)).toNat := hfire'
          replace hfull' : A' = rest.length →
              okCount oracle (i + 1) A' ≤ (L - (st.sent + 1)).toNat := hfull'
          refine ⟨A' + 1, by simpa using Nat.succ_le_succ hA', ?_, ?_, ?_, ?_⟩
          · rw [stepOkNoFlush L oracle c rest i st hq ho hb, hrep']
            simp [attemptEntries, ho, statusOfOutcome, List.take_succ_cons,
              List.drop_succ_cons]
          · rw [stepOkNoFlush L oracle c rest i st hq ho hb, hsucc']
            simp [okCount, ho]
            omega
          · intro hlt
            have hlt' : A' < rest.length := by simp at hlt; omega
            have h2 := hfire' hlt'
            simp [okCount, ho]
            omega
          · intro heq
            have heq' : A' = rest.length := by simp at heq; omega
            have h2 := hfull' heq'
            simp [okCount, ho]
            omega
      | fail m =>
        obtain ⟨A', hA', hrep', hsucc', hfire', hfull'⟩ := ih (i + 1)
          { st with
              results := st.results ++ [⟨st.clock, c.toAddr, failStatus, m⟩]
              clock := st.clock + 1
              fail_count := st.fail_count + 1 }
        replace hsucc' :
            (sendLoopAux L oracle rest (i + 1)
              { st with
                  results := st.results ++ [⟨st.clock, c.toAddr, failStatus, m⟩]
                  clock := st.clock + 1
                  fail_count := st.fail_count + 1 }).success_count =
              st.success_count + (okCount oracle (i + 1) A' : Int) := hsucc'
        replace hfire' : A' < rest.length →
            okCount oracle (i + 1) A' = (L - st.sent).toNat := hfire'
        replace hfull' : A' = rest.length →
            okCount oracle (i + 1) A' ≤ (L - st.sent).toNat := hfull'
        refine ⟨A' + 1, by simpa using Nat.succ_le_succ hA', ?_, ?_, ?_, ?_⟩
        · rw [stepFail L oracle c rest i st m hq ho, hrep']
          simp [attemptEntries, ho, statusOfOutcome, List.take_succ_cons,
            List.drop_succ_cons]
        · rw [stepFail L oracle c rest i st m hq ho, hsucc']
          simp [okCount, ho]
        · intro hlt
          have hlt' : A' < rest.length := by simp at hlt; omega
          have h2 := hfire' hlt'
          simp [okCount, ho]
          omega
        · intro heq
          have heq' : A' = rest.length := by simp at heq; omega
          have h2 := hfull' heq'
          simp [okCount, ho]
          omega

theorem dispatch_noraise (L s0 : Int) (oracle : Nat → SendOutcome) (es : List Candidate)
    (hnr : ∀ (j : Nat) (m : String), oracle j ≠ SendOutcome.raised m) :
    ∃ A ≤ es.length,
      (dispatch L s0 oracle es).results.map (fun e => (e.recipient, e.status)) =
        attemptEntries oracle 0 (es.take A) ++
          (es.drop A).map (fun c => (c.toAddr, haltStatus)) ∧
      (dispatch L s0 oracle es).success_count = (okCount oracle 0 A : Int) ∧
      (A < es.length → okCount oracle 0 A = (L - s0).toNat) ∧
      (A = es.length → okCount oracle 0 A ≤ (L - s0).toNat) := by
  obtain ⟨hr, _, hsc, _, _⟩ := dispatch_proj L s0 oracle es
  obtain ⟨A, hA, hrep, hsucc, hfire, hfull⟩ := sendLoop_noraise L oracle hnr es 0 (initSt s0)
  replace hfire : A < es.length → okCount oracle 0 A = (L - s0).toNat := hfire
  replace hfull : A = es.length → okCount oracle 0 A ≤ (L - s0).toNat := hfull
  refine ⟨A, hA, ?_, ?_, hfire, hfull⟩
  · rw [hr, hrep]
    simp [initSt]
  · rw [hsc, hsucc]
    simp [initSt]

/-!
## Claim theorems for the send pipeline
-/

/-- **C1 (amended).** The dispatch loop performs at most
`R = max(0, daily_limit - daily_sent_count)` successful sends, for every
provider behavior.  When no provider call raises, the run attempts exactly
a prefix of `A` candidates -- each recorded with its own outcome's status
-- and marks all remaining candidates halted-by-quota with no further send
attempts; whenever the halt fires (`A < N`) the attempted prefix holds
exactly `R` successes, so the halted items are the trailing `N - R - F`
items where `F` is the number of failed attempts.  When every attempted
send succeeds (`F = 0`) the report is exactly the first `R` candidates
marked success followed by the trailing `N - R` marked halted, in original
order. -/
theorem quota_halt_amended (L s0 : Int) (oracle : Nat → SendOutcome)
    (emails : List Candidate) :
    (dispatch L s0 oracle emails).success_count ≤ max 0 (L - s0) ∧
    ((∀ (j : Nat) (m : String), oracle j ≠ SendOutcome.raised m) →
      ∃ A ≤ emails.length,
        (dispatch L s0 oracle emails).results.map (fun e => (e.recipient, e.status)) =
          attemptEntries oracle 0 (emails.take A) ++
            (emails.drop A).map (fun c => (c.toAddr, haltStatus)) ∧
        (dispatch L s0 oracle emails).success_count = (okCount oracle 0 A : Int) ∧
        (A < emails.length → okCount oracle 0 A = (L - s0).toNat) ∧
        (A = emails.length → okCount oracle 0 A ≤ (L - s0).toNat) ∧
        (A < emails.length →
          emails.length - A =
            emails.length - (L - s0).toNat - (A - okCount oracle 0 A))) ∧
    ((∀ j, oracle j = SendOutcome.ok) →
      (dispatch L s0 oracle emails).results.map (fun e => (e.recipient, e.status)) =
        (emails.take (L - s0).toNat).map (fun c => (c.toAddr, okStatus)) ++
          (emails.drop (L - s0).toNat).map (fun c => (c.toAddr, haltStatus))) := by
  refine ⟨(dispatch_sent_succ L s0 oracle emails).2.2, ?_, ?_⟩
  · intro hnr
    obtain ⟨A, hA, hrep, hsucc, hfire, hfull⟩ := dispatch_noraise L s0 oracle emails hnr
    refine ⟨A, hA, hrep, hsucc, hfire, hfull, ?_⟩
    intro hlt
    have h1 := hfire hlt
    have h2 := okCount_le oracle A 0
    omega
  · intro hok
    exact dispatch_allok L s0 oracle emails hok

/-- Witness for the amended quota property: the no-raise clause is
instantiated at `L = 1` with a failing first send, the all-success clause
at `L = 2` with three candidates. -/
theorem quota_halt_amended_witness :
    (dispatch 2 0 okOracle exEmails).results.map (fun e => (e.recipient, e.status)) =
      [("a@x.com", okStatus), ("b@x.com", okStatus), ("c@x.com", haltStatus)] := by
  have hb := (quota_halt_amended 1 0 failFirstOracle exEmails).2.1
    (by intro j m; by_cases hj : j = 0 <;> simp [failFirstOracle, hj])
  have h := (quota_halt_amended 2 0 okOracle exEmails).2.2 (fun j => rfl)
  rw [h]
  decide

/-- **C1 counterexample.** With remaining quota `R = 1` and three
candidates whose first send fails, the run records failure, success,
halted: the item at position 1 (beyond `R`) is *not* halted-by-quota, so
the halted items are not the trailing `N - R = 2` items the claim
requires. -/
theorem quota_halt_counterexample :
    (dispatch 1 0 failFirstOracle exEmails).results.map Entry.status =
      [failStatus, okStatus, haltStatus] ∧
    ¬ ∀ e ∈ (dispatch 1 0 failFirstOracle exEmails).results.drop 1,
        e.status = haltStatus := by
  exact ⟨by decide, by decide⟩

/-- **C3.** A failed send appends exactly one failure entry carrying the
provider message, leaves the daily counter and the pending-history buffer
untouched, and continues with the next candidate; globally the counter
advances by exactly the number of successes and the History Store receives
exactly the confirmed-success recipients. -/
theorem failure_nonfatal :
    (∀ (L s0 : Int) (oracle : Nat → SendOutcome) (emails : List Candidate),
      (dispatch L s0 oracle emails).sent = s0 + (dispatch L s0 oracle emails).success_count ∧
      (dispatch L s0 oracle emails).flushed.flatten =
        successRecipients (dispatch L s0 oracle emails).results) ∧
    ∀ (L : Int) (oracle : Nat → SendOutcome) (c : Candidate) (rest : List Candidate)
      (i : Nat) (st : LoopSt) (m : String),
      ¬ _get_remaining L st.sent ≤ 0 → oracle i = SendOutcome.fail m →
      sendLoopAux L oracle (c :: rest) i st =
        sendLoopAux L oracle rest (i + 1)
          { st with
              results := st.results ++ [⟨st.clock, c.toAddr, failStatus, m⟩]
              clock := st.clock + 1
              fail_count := st.fail_count + 1 } := by
  refine ⟨fun L s0 oracle emails => ⟨(dispatch_sent_succ L s0 oracle emails).1,
    dispatch_flushed_successes L s0 oracle emails⟩, ?_⟩
  intro L oracle c rest i st m h ho
  exact stepFail L oracle c rest i st m h ho

/-- Witness for the failure step: one failure, counter untouched. -/
theorem failure_nonfatal_witness :
    (sendLoopAux 2 failFirstOracle [mkCand "a@x.com", mkCand "b@x.com"] 0
      (initSt 0)).fail_count = 1 := by
  have h := failure_nonfatal.2 2 failFirstOracle (mkCand "a@x.com") [mkCand "b@x.com"]
    0 (initSt 0) "수신자 주소 오류" (by decide) (by decide)
  rw [h]
  decide

/-- **C4.** Every mid-run flush carries exactly 10 addresses (the buffer
never reaches 10 without being flushed), and after the unconditional final
flush the History Store writes cover exactly the successfully sent
addresses — also on runs aborted by an exception, because the final flush
sits after the `except` handler. -/
theorem flush_batching (L s0 : Int) (oracle : Nat → SendOutcome) (emails : List Candidate) :
    (∀ b ∈ (sendLoopAux L oracle emails 0 (initSt s0)).flushed, b.length = 10) ∧
    (sendLoopAux L oracle emails 0 (initSt s0)).batch.length ≤ 9 ∧
    (dispatch L s0 oracle emails).batch = [] ∧
    (dispatch L s0 oracle emails).flushed.flatten =
      successRecipients (dispatch L s0 oracle emails).results := by
  have hb := sendLoop_batch L oracle emails 0 (initSt s0) (by simp [initSt]) (by simp [initSt])
  exact ⟨hb.2, hb.1, (dispatch_proj L s0 oracle emails).2.2.2.2,
    dispatch_flushed_successes L s0 oracle emails⟩

/-- Witness for the flush-size law on a run crossing the flush boundary. -/
theorem flush_batching_witness :
    ((exEmails11.take 10).map Candidate.toAddr).length = 10 :=
  (flush_batching 100 0 okOracle exEmails11).1 _ (by decide)

/-- **C9.** Every run's report covers every candidate exactly once in
order (one entry per candidate, with sequential timestamps and one of the
three statuses), and a raised provider exception marks every remaining
candidate failed with the exception detail and stops the loop. -/
theorem complete_report (L s0 : Int) (oracle : Nat → SendOutcome) (emails : List Candidate) :
    (dispatch L s0 oracle emails).results.map Entry.recipient = emails.map Candidate.toAddr ∧
    (dispatch L s0 oracle emails).results.map Entry.tstamp = List.range emails.length ∧
    (∀ e ∈ (dispatch L s0 oracle emails).results,
      e.status = okStatus ∨ e.status = failStatus ∨ e.status = haltStatus) ∧
    ∀ (c : Candidate) (rest : List Candidate) (i : Nat) (st : LoopSt) (m : String),
      ¬ _get_remaining L st.sent ≤ 0 → oracle i = SendOutcome.raised m →
      sendLoopAux L oracle (c :: rest) i st =
        { st with
            results := st.results ++ markEntries st.clock failStatus m (c :: rest)
            fail_count := st.fail_count + (c :: rest).length
            clock := st.clock + (c :: rest).length
            aborted := some m } :=
  ⟨dispatch_recipients L s0 oracle emails, dispatch_tstamps L s0 oracle emails,
    dispatch_statuses L s0 oracle emails,
    fun c rest i st m h ho => stepRaised L oracle c rest i st m h ho⟩

/-- Witness for the catastrophic-failure step. -/
theorem complete_report_witness :
    (sendLoopAux 5 raiseSecondOracle [mkCand "b@x.com"] 1 (initSt 0)).aborted =
      some "boom" := by
  have h := (complete_report 5 0 raiseSecondOracle [mkCand "b@x.com"]).2.2.2
    (mkCand "b@x.com") [] 1 (initSt 0) "boom" (by decide) (by decide)
  rw [h]

/-!
## Build-phase lemmas and the dedup property
-/

theorem buildRow_toAddr (cfg : BuildConfig) (used : List String) (rd : Dict) (te : String) :
    (buildRow cfg used rd te).toAddr = te := rfl

theorem buildLoop_emails (cfg : BuildConfig) (used : List String) (already : List String)
    (columns : List String) :
    ∀ rows : List Row,
      (buildLoop cfg used already columns rows).email_list.map Candidate.toAddr =
        (rows.filterMap (rowEmail cfg.email_col columns)).filter
          fun e => ¬ normalizeEmail e ∈ already := by
  intro rows
  induction rows with
  | nil => simp [buildLoop]
  | cons r rs ih =>
    simp only [buildLoop]
    by_cases h1 : dictGet (get_row_data columns r) cfg.email_col = "" ∨
        dictGet (get_row_data columns r) cfg.email_col = "nan"
    · rw [if_pos h1]
      have hre : rowEmail cfg.email_col columns r = none := by
        simp only [rowEmail]
        rw [if_pos h1]
      rw [List.filterMap_cons, hre]
      exact ih
    · rw [if_neg h1]
      have hre : rowEmail cfg.email_col columns r =
          some (dictGet (get_row_data columns r) cfg.email_col) := by
        simp only [rowEmail]
        rw [if_neg h1]
      rw [List.filterMap_cons, hre]
      by_cases h2 : normalizeEmail (dictGet (get_row_data columns r) cfg.email_col) ∈ already
      · rw [if_pos h2]
        simp only []
        rw [List.filter_cons_of_neg (by simpa using h2)]
        exact ih
      · rw [if_neg h2]
        simp only [List.map_cons, buildRow_toAddr]
        rw [List.filter_cons_of_pos (by simpa using h2)]
        rw [ih]

theorem build_excludes (cfg : BuildConfig) (already : List String) (df : Frame) :
    (buildCandidates cfg already df).email_list.map Candidate.toAddr =
      (validEmails cfg.email_col df).filter fun e => ¬ normalizeEmail e ∈ already := by
  unfold buildCandidates validEmails
  exact buildLoop_emails cfg _ already df.columns df.rows

theorem storeAfterRun_eq (store : HistoryStore) (d : LoopSt) :
    storeAfterRun store d = store ++ d.flushed.flatten.map normalizeEmail := by
  unfold storeAfterRun
  generalize d.flushed = bs
  induction bs generalizing store with
  | nil => simp
  | cons b bs ih =>
    simp only [List.foldl_cons, List.flatten_cons, List.map_append]
    rw [ih]
    simp [add_sent_emails_batch]

theorem dispatch_success_in_flushed (L s0 : Int) (oracle : Nat → SendOutcome)
    (es : List Candidate) (en : Entry)
    (hmem : en ∈ (dispatch L s0 oracle es).results) (hst : en.status = okStatus) :
    en.recipient ∈ (dispatch L s0 oracle es).flushed.flatten := by
  rw [dispatch_flushed_successes]
  exact List.mem_map.mpr ⟨en, List.mem_filter.mpr ⟨hmem, by simp [hst]⟩, rfl⟩

theorem mem_get_sent_after (store : HistoryStore) (d : LoopSt) (a : String)
    (h : a ∈ d.flushed.flatten) :
    normalizeEmail a ∈ get_sent_emails (storeAfterRun store d) := by
  rw [storeAfterRun_eq]
  unfold get_sent_emails
  rw [List.map_append]
  apply List.mem_append_right
  rw [List.map_map]
  refine List.mem_map.mpr ⟨a, h, ?_⟩
  show normalizeEmail (normalizeEmail a) = normalizeEmail a
  exact normalizeEmail_idem a

theorem build_excluded_of_mem (cfg : BuildConfig) (already : List String) (df : Frame)
    (c : Candidate) (hc : c ∈ (buildCandidates cfg already df).email_list) :
    ¬ normalizeEmail c.toAddr ∈ already := by
  have h := build_excludes cfg already df
  have hmem : c.toAddr ∈ (buildCandidates cfg already df).email_list.map Candidate.toAddr :=
    List.mem_map_of_mem _ hc
  rw [h] at hmem
  have := (List.mem_filter.mp hmem).2
  simpa using this

/-- **C2.** The build phase excludes a surviving row exactly when its
trimmed, lowercased email is in the History Store read set; consequently,
if an address got a successful result in run 1 and its flush completed,
run 2 over the same input never dispatches to it again — re-running is
idempotent with respect to recorded recipients. -/
theorem dedup_idempotent :
    (∀ (cfg : BuildConfig) (already : List String) (df : Frame),
      (buildCandidates cfg already df).email_list.map Candidate.toAddr =
        (validEmails cfg.email_col df).filter fun e => ¬ normalizeEmail e ∈ already) ∧
    ∀ (cfg : BuildConfig) (store : HistoryStore) (df : Frame) (L s0 : Int)
      (oracle : Nat → SendOutcome) (a : String) (en : Entry),
      en ∈ (dispatch L s0 oracle
          (buildCandidates cfg (get_sent_emails store) df).email_list).results →
      en.status = okStatus → en.recipient = a →
      ∀ c ∈ (buildCandidates cfg
          (get_sent_emails (storeAfterRun store
            (dispatch L s0 oracle
              (buildCandidates cfg (get_sent_emails store) df).email_list))) df).email_list,
        normalizeEmail c.toAddr ≠ normalizeEmail a := by
  refine ⟨fun cfg already df => build_excludes cfg already df, ?_⟩
  intro cfg store df L s0 oracle a en hmem hst hrec c hc hcontra
  have h1 := dispatch_success_in_flushed L s0 oracle
    (buildCandidates cfg (get_sent_emails store) df).email_list en hmem hst
  rw [hrec] at h1
  have h2 := mem_get_sent_after store
    (dispatch L s0 oracle (buildCandidates cfg (get_sent_emails store) df).email_list) a h1
  have h3 := build_excluded_of_mem cfg
    (get_sent_emails (storeAfterRun store
      (dispatch L s0 oracle (buildCandidates cfg (get_sent_emails store) df).email_list)))
    df c hc
  rw [hcontra] at h3
  exact h3 h2

/-- Witness for the dedup property on a concrete two-row frame with
`daily_limit = 1`: run 1 sends to the first address; run 2 only offers the
second. -/
theorem dedup_idempotent_witness :
    normalizeEmail "b@x.com" ≠ normalizeEmail "A@x.com" := by
  have h := dedup_idempotent.2 exCfg [] exFrame 1 0 okOracle "A@x.com"
    ⟨0, "A@x.com", okStatus, "기본값 적용"⟩ (by decide) (by decide) (by decide)
  have hc := h ⟨"b@x.com", "Acme deal", "hi Acme", ""⟩ (by decide)
  simpa using hc

end ColdMail
